import Mathlib

/-!
Shallow embedding of the release/asset selection, caching and launch logic of
`src/main.py` (a desktop launcher for Cura releases).  Characters are modelled
as Unicode code points (`Nat`); Python strings are `List Nat`.  The regular
expressions of the source are embedded as the string predicates they denote on
the relevant alphabet.  Stateful code (filesystem, download, process launch)
is modelled as explicit state passing over an association-list filesystem plus
an event trace.
-/

set_option autoImplicit false

/-- Encode a Lean string literal as the list of its code points; used only to
write concrete inputs readably. -/
def enc (s : String) : List Nat := s.toList.map Char.toNat

/-- Python `str.lower()` restricted to the ASCII range (the titles and
filenames this program handles are ASCII): code points 65-90 (`A`-`Z`) map to
97-122 (`a`-`z`), everything else is unchanged. -/
def pyLower (c : Nat) : Nat := if 65 ≤ c ∧ c ≤ 90 then c + 32 else c

/-- Lowercasing of a whole string, `s.lower()`. -/
def lowerL (s : List Nat) : List Nat := s.map pyLower

/-- The ASCII whitespace stripped by Python `str.strip()`:
space (32), tab (9), `\n` (10), `\v` (11), `\f` (12), `\r` (13). -/
def isPySpace (c : Nat) : Bool :=
  c = 32 || c = 9 || c = 10 || c = 11 || c = 12 || c = 13

/-- Python `str.strip()`: drop leading and trailing whitespace. -/
def pyStrip (s : List Nat) : List Nat :=
  ((s.dropWhile isPySpace).reverse.dropWhile isPySpace).reverse

/-- Whether `pat` occurs as a contiguous substring of `s`. -/
def containsPat (pat : List Nat) : List Nat → Bool
  | [] => pat.isPrefixOf ([] : List Nat)
  | c :: rest => pat.isPrefixOf (c :: rest) || containsPat pat rest

/-- Fuelled worker for Python `str.replace(pat, "")`: scan left to right and
delete each leftmost non-overlapping occurrence of `pat`.  The fuel is the
length of the string, which suffices (each step consumes at least one
character). -/
def replaceGo (pat : List Nat) : Nat → List Nat → List Nat
  | _, [] => []
  | 0, s => s
  | fuel + 1, c :: rest =>
      if pat ≠ [] ∧ pat.isPrefixOf (c :: rest) then
        replaceGo pat fuel (List.drop (pat.length - 1) rest)
      else
        c :: replaceGo pat fuel rest

/-- Python `s.replace(pat, "")` (deletion of every occurrence of `pat`). -/
def pyReplace (pat s : List Nat) : List Nat := replaceGo pat s.length s

/-- The project display-name substring removed by title normalization
(`"ultimaker cura"` in `get_releases`). -/
def ucPat : List Nat := enc "ultimaker cura"

/-- Title normalization of `get_releases` (src/main.py line 92):
`r.title.strip().lower().replace("ultimaker cura", "").strip()`. -/
def normTitle (t : List Nat) : List Nat :=
  pyStrip (pyReplace ucPat (lowerL (pyStrip t)))

/-- Character class `[\d\.]` of the title filter: a decimal digit or a dot. -/
def isDigitDot (c : Nat) : Bool := (48 ≤ c && c ≤ 57) || c = 46

/-- Character class `[a-z]` under `re.IGNORECASE`: an ASCII letter of either
case. -/
def isAlphaIC (c : Nat) : Bool := (97 ≤ c && c ≤ 122) || (65 ≤ c && c ≤ 90)

/-- Python's `$` anchor (no MULTILINE): it matches at the very end of the
string, or just before a final `\n` (10). -/
def dollarEnd : List Nat → Bool
  | [] => true
  | [c] => c = 10
  | _ => false

/-- The substitution `re.sub(re.compile(r"^v", re.IGNORECASE), "", t)`
(src/main.py lines 105-106): strip one leading `v` (118) or `V` (86).  This
is also exactly what the `v?` of the title filter consumes: since `v`/`V` is
in neither `[\d\.]` nor `\-`, a leading `v` can only be matched by the `v?`
group. -/
def stripV (s : List Nat) : List Nat :=
  match s with
  | c :: rest => if c = 118 ∨ c = 86 then rest else c :: rest
  | [] => []

/-- The part of the title filter regex after `^v?`, namely
`[\d\.]+(\-[a-z]+)?$`: a nonempty run of digits and dots, an optional hyphen
followed by a nonempty run of letters, then the end anchor.  The character
classes are disjoint from `-` and from each other's boundary characters, so
the regex is matched deterministically by maximal-munch. -/
def titleCore (s1 : List Nat) : Bool :=
  decide (s1.takeWhile isDigitDot ≠ []) &&
    (dollarEnd (s1.dropWhile isDigitDot) ||
      match s1.dropWhile isDigitDot with
      | c :: tl =>
          decide (c = 45) && decide (tl.takeWhile isAlphaIC ≠ []) &&
            dollarEnd (tl.dropWhile isAlphaIC)
      | [] => false)

/-- The release-title filter regex `^v?[\d\.]+(\-[a-z]+)?$` with
`re.IGNORECASE` (src/main.py line 104), as the predicate it denotes (used
with `re.search`, but anchored on both sides). -/
def titleFilter (s : List Nat) : Bool := titleCore (stripV s)

/-- Python's `$` applied from the right: the position a suffix pattern must
reach is the true end of the string, or just before a final newline.
`dollarCore` removes the single trailing `\n` if present, leaving the string
the pattern's suffix must end. -/
def dollarCore (s : List Nat) : List Nat :=
  if s.getLast? = some 10 then s.dropLast else s

/-- Asset regex for linux, `(\-linux)?\.AppImage$` with `re.IGNORECASE`
(src/main.py line 112) under `re.search`: since the group `(\-linux)?` is
optional, a match exists iff the string ends (at the `$` anchor) with
`.appimage`, case-insensitively. -/
def matchLinux (name : List Nat) : Bool :=
  (enc ".appimage").isSuffixOf (dollarCore (lowerL name))

/-- Asset regex for mac, `\-Darwin\.dmg$` with `re.IGNORECASE`
(src/main.py line 114): the string ends with `-darwin.dmg`,
case-insensitively. -/
def matchMac (name : List Nat) : Bool :=
  (enc "-darwin.dmg").isSuffixOf (dollarCore (lowerL name))

/-- Asset regex for windows, `\-amd64.exe$` with `re.IGNORECASE`
(src/main.py line 116).  The `.` is unescaped in the source, so it matches
any character except a newline: the string ends with `-amd64`, one
non-newline character, then `exe`.  Checked from the right on the reversed
string (`exe` reversed is `101,120,101`; `-amd64` reversed is the reverse of
its code points). -/
def matchWindows (name : List Nat) : Bool :=
  match (dollarCore (lowerL name)).reverse with
  | 101 :: 120 :: 101 :: c :: rest =>
      if c = 10 then false else (enc "-amd64").reverse.isPrefixOf rest
  | _ => false

/-- The pattern selection of `filter_assets` (src/main.py lines 110-116):
`pattern` starts as `None` and is set only for the three configured OS
values; any other value leaves `None` (which `re.search` rejects with a
`TypeError` when applied). -/
def osPattern (osType : String) : Option (List Nat → Bool) :=
  if osType = "linux" then some matchLinux
  else if osType = "mac" then some matchMac
  else if osType = "windows" then some matchWindows
  else none

/-- A release asset as delivered by the hosting API: the fields of the remote
asset object that the program reads (`asset.name`, `asset.browser_download_url`;
the URL is abstracted to an identifier). -/
structure Asset where
  name : List Nat
  browser_download_url : Nat
deriving DecidableEq

/-- A release as delivered by the hosting API: the fields the core logic
reads (`r.id`, `r.title`, and its asset list, which the remote carries with
the release). -/
structure Release where
  id : Nat
  title : List Nat
  assets : List Asset
deriving DecidableEq

/-- The in-memory release mapping `self.releases`: a Python dict from
normalized title to release, modelled as an insertion-ordered association
list with unique keys. -/
abbrev Catalog := List (List Nat × Release)

/-- Python dict lookup `d[k]` (as `Option`; `none` is a `KeyError`). -/
def dictLookup (k : List Nat) : Catalog → Option Release
  | [] => none
  | (k', r) :: rest => if k' = k then some r else dictLookup k rest

/-- Python dict assignment `d[k] = v`: overwrite in place if the key is
present (keeping its position), append otherwise. -/
def dictInsert (k : List Nat) (v : Release) : Catalog → Catalog
  | [] => [(k, v)]
  | (k', v') :: rest =>
      if k' = k then (k', v) :: rest else (k', v') :: dictInsert k v rest

/-- The dict comprehension of `get_releases` (src/main.py line 92):
`{normTitle(r.title): r for r in remote}`, built left to right. -/
def buildCatalog (remote : List Release) : Catalog :=
  remote.foldl (fun acc r => dictInsert (normTitle r.title) r acc) []

/-- `get_releases` (src/main.py lines 90-95): if the memoized mapping is
empty, fetch the remote release list and build the mapping; otherwise return
the memoized mapping.  `remote` stands for what the API would deliver; the
returned `Bool` records whether a network fetch happened on this call. -/
def get_releases (remote : List Release) (cache : Catalog) : Catalog × Bool :=
  if cache.isEmpty then (buildCatalog remote, true) else (cache, false)

/-- `filter_releases` (src/main.py lines 103-106): the dict comprehension
`{stripV(t): r for t, r in releases.items() if titleFilter(t)}`. -/
def filter_releases (releases : Catalog) : Catalog :=
  releases.foldl
    (fun acc kr => if titleFilter kr.1 then dictInsert (stripV kr.1) kr.2 acc else acc)
    []

/-- The catalog access of `select_release` (src/main.py lines 97-100):
`self.get_releases()[index]`; `none` models the `KeyError` raised when the
index is not a key of the mapping. -/
def select_release (catalog : Catalog) (index : List Nat) : Option Release :=
  dictLookup index catalog

/-- `filter_assets` (src/main.py lines 108-122): choose the OS pattern, then
keep, in input order, exactly the assets whose name matches it (the source's
append loop).  `none` models the unset (`None`) pattern of an unsupported OS
value. -/
def filter_assets (osType : String) (assets : List Asset) : Option (List Asset) :=
  (osPattern osType).map (fun p => assets.filter (fun a => p a.name))

/-- Observable side effects of one launch invocation, in program order:
`netStart`/`netEnd` bracket the asset download (`urlopen` opened / body fully
read), `unlinkF`/`writeF`/`chmodF` are filesystem operations on the target
path, `launchF` is the start of the child process for the file, `writeSel`
is the write of the last-selected-release file. -/
inductive Ev where
  | netStart (url : Nat)
  | netEnd (url : Nat)
  | unlinkF (path : List Nat)
  | writeF (path : List Nat)
  | chmodF (path : List Nat)
  | launchF (path : List Nat)
  | writeSel (key : List Nat)
deriving DecidableEq

/-- The release directory on disk: an association list from path to file
content (a byte list; `os.path.getsize` is the content's length). -/
abbrev FS := List (List Nat × List Nat)

/-- File lookup: `none` iff `os.path.exists` is false. -/
def fsGet (k : List Nat) : FS → Option (List Nat)
  | [] => none
  | (k', v) :: rest => if k' = k then some v else fsGet k rest

/-- Writing a file (creating or overwriting it). -/
def fsSet (k v : List Nat) : FS → FS
  | [] => [(k, v)]
  | (k', v') :: rest =>
      if k' = k then (k', v) :: rest else (k', v') :: fsSet k v rest

/-- `os.unlink`: remove the file at the path (every entry with that path, so
the association list denotes a map even on duplicate-key lists, which no real
filesystem state produces). -/
def fsDel (k : List Nat) : FS → FS
  | [] => []
  | (k', v') :: rest =>
      if k' = k then fsDel k rest else (k', v') :: fsDel k rest

/-- Program state threaded through a launch invocation: the release
directory's contents plus the trace of observable events so far. -/
structure St where
  fs : FS
  events : List Ev
deriving DecidableEq

/-- Outcome of one attempted fetch of an asset URL.  `ok` delivers the whole
body; `connectError` models `urlopen` raising (the target file is never
opened); `readError` models an error partway through the read/write after
`open(file_path, "wb")` has already truncated/created the target file. -/
inductive Fetch where
  | ok (content : List Nat)
  | connectError
  | readError
deriving DecidableEq

/-- `launch_file` (src/main.py lines 137-145): start the child process for
the file on a background thread (the status-label updates are presentation
and not modelled). -/
def launch_file (filePath : List Nat) (s : St) : St :=
  { s with events := s.events ++ [Ev.launchF filePath] }

/-- `download_asset` (src/main.py lines 124-135): open the asset URL, write
the whole body to the target path, `chmod 0o744`, and, when `launch` is set,
launch the file.  The returned `Bool` is whether the function ran to
completion; on an exception it is `false` and the state shows what had
already happened (note: no cleanup of the target file is performed on
error). -/
def download_asset (fetch : Fetch) (asset : Asset) (filePath : List Nat)
    (launch : Bool) (s : St) : St × Bool :=
  match fetch with
  | Fetch.connectError =>
      ({ s with events := s.events ++ [Ev.netStart asset.browser_download_url] }, false)
  | Fetch.readError =>
      ({ fs := fsSet filePath [] s.fs,
         events := s.events ++ [Ev.netStart asset.browser_download_url,
                                Ev.writeF filePath] }, false)
  | Fetch.ok content =>
      let s1 : St :=
        { fs := fsSet filePath content s.fs,
          events := s.events ++ [Ev.netStart asset.browser_download_url,
                                 Ev.netEnd asset.browser_download_url,
                                 Ev.writeF filePath,
                                 Ev.chmodF filePath] }
      if launch then (launch_file filePath s1, true) else (s1, true)

/-- `os.path.join(release_dir, name)` (with `realpath` as identity): the
directory, a `/` (47), then the name. -/
def joinPath (dir name : List Nat) : List Nat := dir ++ 47 :: name

/-- The name of the persisted-selection file, `"last-selected-release"`
(src/main.py line 39). -/
def lastSelName : List Nat := enc "last-selected-release"

/-- The zero-byte corruption check of `launch_release` (src/main.py lines
155-156): if the target path exists and has size 0, delete it. -/
def cleanZero (filePath : List Nat) (s : St) : St :=
  match fsGet filePath s.fs with
  | some content =>
      if content.length = 0 then
        { fs := fsDel filePath s.fs, events := s.events ++ [Ev.unlinkF filePath] }
      else s
  | none => s

/-- The write of the last-selected-release file (src/main.py lines 164-165):
overwrite it with the current index. -/
def writeSelection (releaseDir key : List Nat) (s : St) : St :=
  { fs := fsSet (joinPath releaseDir lastSelName) key s.fs,
    events := s.events ++ [Ev.writeSel key] }

/-- The startup read of the last-selected-release file (src/main.py lines
40-42): the persisted key if the file exists, `none` otherwise. -/
def loadSel (releaseDir : List Nat) (fs : FS) : Option (List Nat) :=
  fsGet (joinPath releaseDir lastSelName) fs

/-- How a `launch_release` invocation ends: normally (`ok`), or with the
`KeyError` of the catalog lookup, the `AssertionError` of
`assert len(assets) > 0`, or the `TypeError` of `re.search(None, ...)` for an
unsupported OS value. -/
inductive LRes where
  | ok
  | keyError
  | assertFail
  | typeError
deriving DecidableEq

/-- `launch_release` (src/main.py lines 147-165).  The catalog argument is
the memoized mapping `self.get_releases()` returns (non-empty whenever the
lookup succeeds, so that call performs no fetch — see `get_releases`).  The
spawned download thread's body (`download_asset` with `launch=True`) is
sequential, so it is modelled by running it to completion; the selection
write of the foreground thread follows.  On an exception (`KeyError`,
`AssertionError`, `TypeError`) the function aborts with the state as it was:
in particular the selection write never happens. -/
def launch_release (osType : String) (fetch : Fetch) (catalog : Catalog)
    (currentIndex releaseDir : List Nat) (s : St) : St × LRes :=
  match dictLookup currentIndex catalog with
  | none => (s, LRes.keyError)
  | some release =>
    match filter_assets osType release.assets with
    | none => (s, if release.assets.isEmpty then LRes.assertFail else LRes.typeError)
    | some [] => (s, LRes.assertFail)
    | some (asset :: _) =>
      let filePath := joinPath releaseDir asset.name
      let s1 := cleanZero filePath s
      let s2 :=
        match fsGet filePath s1.fs with
        | none => (download_asset fetch asset filePath true s1).1
        | some _ => launch_file filePath s1
      (writeSelection releaseDir currentIndex s2, LRes.ok)

/-- No-launch-during-download scanner: walk the event list keeping an
in-flight flag (set by `netStart`, cleared by `netEnd`), and demand that no
`launchF` event occurs while a download is in flight. -/
def scanOK : Bool → List Ev → Bool
  | _, [] => true
  | _, Ev.netStart _ :: rest => scanOK true rest
  | _, Ev.netEnd _ :: rest => scanOK false rest
  | inflight, Ev.launchF _ :: rest => !inflight && scanOK inflight rest
  | inflight, _ :: rest => scanOK inflight rest

/-- The first demo asset of the spec's asset-filter example. -/
def asset1 : Asset := ⟨enc "Cura-5.1.0-linux.AppImage", 1⟩

/-- The second demo asset of the spec's asset-filter example. -/
def asset2 : Asset := ⟨enc "Cura-5.1.0.AppImage", 2⟩

/-- The third demo asset of the spec's asset-filter example. -/
def asset3 : Asset := ⟨enc "Cura-5.1.0-Darwin.dmg", 3⟩

/-- The fourth demo asset of the spec's asset-filter example. -/
def asset4 : Asset := ⟨enc "Cura-5.1.0-amd64.exe", 4⟩

/-- The asset list of the spec's asset-filter example. -/
def demoAssets : List Asset := [asset1, asset2, asset3, asset4]

/-- A demo release carrying the example assets. -/
def demoRelease : Release := ⟨100, enc "Ultimaker Cura 5.1.0", demoAssets⟩

/-- A one-entry catalog holding the demo release under its normalized
title. -/
def demoCatalog : Catalog := [(enc "5.1.0", demoRelease)]

/-- A release whose only asset matches no OS pattern (used to exercise the
empty-filter branch). -/
def relDoc : Release := ⟨7, enc "9.9", [⟨enc "readme.txt", 9⟩]⟩

/-- A release titled `v1.2` (keyed by its normalized title). -/
def relA : Release := ⟨1, enc "v1.2", []⟩

/-- A distinct release titled `1.2`. -/
def relB : Release := ⟨2, enc "1.2", []⟩

/-- A catalog holding both `v1.2` and `1.2`, whose filtered keys collide. -/
def cexCatalog : Catalog := [(enc "v1.2", relA), (enc "1.2", relB)]

/-- The release-title pattern as the spec words it, written independently of
the regex embedding: an optional leading `v` or `V`, then a nonempty run of
digits and dots, optionally followed by a hyphen and a nonempty run of
letters (case-insensitive). -/
def SpecTitle (s : List Nat) : Prop :=
  ∃ v d e : List Nat,
    s = v ++ d ++ e ∧
    (v = [] ∨ v = [118] ∨ v = [86]) ∧
    d ≠ [] ∧ (∀ c ∈ d, isDigitDot c = true) ∧
    (e = [] ∨ ∃ ls : List Nat, e = 45 :: ls ∧ ls ≠ [] ∧ ∀ c ∈ ls, isAlphaIC c = true)

theorem fsGet_fsSet_same (k v : List Nat) (fs : FS) :
    fsGet k (fsSet k v fs) = some v := by
  induction fs with
  | nil => simp [fsSet, fsGet]
  | cons hd tl ih =>
      obtain ⟨k', v'⟩ := hd
      by_cases h : k' = k <;> simp [fsSet, fsGet, h, ih]

theorem fsGet_fsDel_same (k : List Nat) (fs : FS) :
    fsGet k (fsDel k fs) = none := by
  induction fs with
  | nil => simp [fsDel, fsGet]
  | cons hd tl ih =>
      obtain ⟨k', v'⟩ := hd
      by_cases h : k' = k <;> simp [fsDel, fsGet, h, ih]

/-- C2: for the demo asset list, the asset filter with OS=linux returns
exactly the first two entries in original order, with OS=mac exactly the
third, and with OS=windows exactly the fourth; in general, for every
configured OS, the filter returns exactly the ordered subsequence of input
assets whose filenames match the OS pattern. -/
theorem c2_asset_filter :
    filter_assets "linux" demoAssets = some [asset1, asset2] ∧
    filter_assets "mac" demoAssets = some [asset3] ∧
    filter_assets "windows" demoAssets = some [asset4] ∧
    ∀ (osType : String) (p : List Nat → Bool) (assets : List Asset),
      osPattern osType = some p →
      filter_assets osType assets = some (assets.filter (fun a => p a.name)) ∧
      (assets.filter (fun a => p a.name)).Sublist assets ∧
      ∀ a : Asset, a ∈ assets.filter (fun a => p a.name) ↔ a ∈ assets ∧ p a.name = true := by
  refine ⟨by decide, by decide, by decide, ?_⟩
  intro osType p assets h
  refine ⟨by simp [filter_assets, h], List.filter_sublist _, ?_⟩
  intro a
  simp [List.mem_filter]

/-- Witness for C2 at OS=linux on the demo assets. -/
theorem c2_asset_filter_witness :
    filter_assets "linux" demoAssets = some (demoAssets.filter (fun a => matchLinux a.name)) ∧
    (demoAssets.filter (fun a => matchLinux a.name)).Sublist demoAssets ∧
    ∀ a : Asset, a ∈ demoAssets.filter (fun a => matchLinux a.name) ↔
      a ∈ demoAssets ∧ matchLinux a.name = true :=
  c2_asset_filter.2.2.2 "linux" matchLinux demoAssets rfl

/-- C4: when the chosen release has zero OS-matching assets, `launch_release`
fails with the `AssertionError` of `assert len(assets) > 0` and leaves the
state (filesystem included, in particular the last-selected-release file)
completely unchanged. -/
theorem c4_no_asset_no_writes (osType : String) (fetch : Fetch) (catalog : Catalog)
    (k releaseDir : List Nat) (s : St) (release : Release)
    (hlook : dictLookup k catalog = some release)
    (hassets : filter_assets osType release.assets = some []) :
    launch_release osType fetch catalog k releaseDir s = (s, LRes.assertFail) := by
  simp [launch_release, hlook, hassets]

/-- Witness for C4: a release whose only asset is `readme.txt` under
OS=linux. -/
theorem c4_no_asset_no_writes_witness :
    launch_release "linux" Fetch.connectError [(enc "9.9", relDoc)] (enc "9.9")
      (enc "d") ⟨[], []⟩ = (⟨[], []⟩, LRes.assertFail) :=
  c4_no_asset_no_writes "linux" Fetch.connectError [(enc "9.9", relDoc)]
    (enc "9.9") (enc "d") ⟨[], []⟩ relDoc (by decide) (by decide)

/-- C5: whenever `launch_release` runs to completion on release key `k`
(catalog lookup succeeds and at least one asset matches the OS), the
persisted selection file under the release directory holds exactly `k`, and
the startup load of that file returns `some k`. -/
theorem c5_selection_roundtrip (osType : String) (fetch : Fetch) (catalog : Catalog)
    (k releaseDir : List Nat) (s : St) (release : Release) (asset : Asset)
    (rest : List Asset)
    (hlook : dictLookup k catalog = some release)
    (hassets : filter_assets osType release.assets = some (asset :: rest)) :
    (launch_release osType fetch catalog k releaseDir s).2 = LRes.ok ∧
    fsGet (joinPath releaseDir lastSelName)
      (launch_release osType fetch catalog k releaseDir s).1.fs = some k ∧
    loadSel releaseDir (launch_release osType fetch catalog k releaseDir s).1.fs = some k := by
  simp [launch_release, hlook, hassets, writeSelection, loadSel, fsGet_fsSet_same]

/-- Witness for C5 on the demo catalog. -/
theorem c5_selection_roundtrip_witness :
    (launch_release "linux" Fetch.connectError demoCatalog (enc "5.1.0") (enc "d")
       ⟨[], []⟩).2 = LRes.ok ∧
    fsGet (joinPath (enc "d") lastSelName)
      (launch_release "linux" Fetch.connectError demoCatalog (enc "5.1.0") (enc "d")
        ⟨[], []⟩).1.fs = some (enc "5.1.0") ∧
    loadSel (enc "d")
      (launch_release "linux" Fetch.connectError demoCatalog (enc "5.1.0") (enc "d")
        ⟨[], []⟩).1.fs = some (enc "5.1.0") :=
  c5_selection_roundtrip "linux" Fetch.connectError demoCatalog (enc "5.1.0")
    (enc "d") ⟨[], []⟩ demoRelease asset1 [asset2] (by decide) (by decide)

/-- C1: on a resolved asset whose target path exists with size 0,
`launch_release` deletes the file and then proceeds to download the asset
(the unlink event is followed immediately by the start of the network
fetch); when the target path exists with size > 0, the invocation performs
no network call at all and launches the cached file directly (its whole
effect is the launch of the cached file and the selection write). -/
theorem c1_cache_check (osType : String) (fetch : Fetch) (catalog : Catalog)
    (k releaseDir : List Nat) (s : St) (release : Release) (asset : Asset)
    (rest : List Asset)
    (hlook : dictLookup k catalog = some release)
    (hassets : filter_assets osType release.assets = some (asset :: rest)) :
    (∀ content, fsGet (joinPath releaseDir asset.name) s.fs = some content →
      content.length = 0 →
      (launch_release osType fetch catalog k releaseDir s).2 = LRes.ok ∧
      ∃ tail, (launch_release osType fetch catalog k releaseDir s).1.events =
        s.events ++ Ev.unlinkF (joinPath releaseDir asset.name) ::
          Ev.netStart asset.browser_download_url :: tail) ∧
    (∀ content, fsGet (joinPath releaseDir asset.name) s.fs = some content →
      0 < content.length →
      launch_release osType fetch catalog k releaseDir s =
        ({ fs := fsSet (joinPath releaseDir lastSelName) k s.fs,
           events := s.events ++ [Ev.launchF (joinPath releaseDir asset.name),
                                  Ev.writeSel k] }, LRes.ok)) := by
  constructor
  · intro content hget hlen
    have hclean : cleanZero (joinPath releaseDir asset.name) s =
        { fs := fsDel (joinPath releaseDir asset.name) s.fs,
          events := s.events ++ [Ev.unlinkF (joinPath releaseDir asset.name)] } := by
      simp [cleanZero, hget, hlen]
    cases fetch <;>
      simp [launch_release, hlook, hassets, hclean, fsGet_fsDel_same,
        download_asset, launch_file, writeSelection]
  · intro content hget hlen
    have hclean : cleanZero (joinPath releaseDir asset.name) s = s := by
      simp [cleanZero, hget, Nat.pos_iff_ne_zero.mp hlen]
    simp [launch_release, hlook, hassets, hclean, hget, launch_file, writeSelection]

/-- Witness for C1: the cached (size > 0) branch on the demo catalog. -/
theorem c1_cache_check_witness :
    launch_release "linux" Fetch.connectError demoCatalog (enc "5.1.0") (enc "d")
      ⟨[(joinPath (enc "d") asset1.name, [7])], []⟩ =
    ({ fs := fsSet (joinPath (enc "d") lastSelName) (enc "5.1.0")
          [(joinPath (enc "d") asset1.name, [7])],
       events := [] ++ [Ev.launchF (joinPath (enc "d") asset1.name),
                        Ev.writeSel (enc "5.1.0")] }, LRes.ok) :=
  (c1_cache_check "linux" Fetch.connectError demoCatalog (enc "5.1.0") (enc "d")
      ⟨[(joinPath (enc "d") asset1.name, [7])], []⟩ demoRelease asset1 [asset2]
      (by decide) (by decide)).2 [7] (by decide) (by decide)

/-- C9: within a single `launch_release` invocation, no launch of a file
ever begins while a download is in flight: the invocation's event trace
passes the in-flight scanner, whichever branch is taken and however the
fetch ends (the download thread's body completes or dies before the launch
step it alone triggers). -/
theorem c9_download_before_launch (osType : String) (fetch : Fetch) (catalog : Catalog)
    (k releaseDir : List Nat) (s : St) :
    scanOK false
      ((launch_release osType fetch catalog k releaseDir s).1.events.drop
        s.events.length) = true := by
  cases hlook : dictLookup k catalog with
  | none => simp [launch_release, hlook, List.drop_length, scanOK]
  | some release =>
    cases hassets : filter_assets osType release.assets with
    | none => simp [launch_release, hlook, hassets, List.drop_length, scanOK]
    | some l =>
      cases l with
      | nil => simp [launch_release, hlook, hassets, List.drop_length, scanOK]
      | cons asset rest =>
        cases hget : fsGet (joinPath releaseDir asset.name) s.fs with
        | none =>
            have hclean : cleanZero (joinPath releaseDir asset.name) s = s := by
              simp [cleanZero, hget]
            cases fetch <;>
              simp [launch_release, hlook, hassets, hclean, hget, download_asset,
                launch_file, writeSelection, List.drop_left, scanOK]
        | some content =>
            by_cases hlen : content.length = 0
            · have hclean : cleanZero (joinPath releaseDir asset.name) s =
                  { fs := fsDel (joinPath releaseDir asset.name) s.fs,
                    events := s.events ++ [Ev.unlinkF (joinPath releaseDir asset.name)] } := by
                simp [cleanZero, hget, hlen]
              cases fetch <;>
                simp [launch_release, hlook, hassets, hclean, fsGet_fsDel_same,
                  download_asset, launch_file, writeSelection, scanOK]
            · have hclean : cleanZero (joinPath releaseDir asset.name) s = s := by
                simp [cleanZero, hget, hlen]
              simp [launch_release, hlook, hassets, hclean, hget, launch_file,
                writeSelection, scanOK]

theorem dictInsert_ne_nil (k : List Nat) (v : Release) (d : Catalog) :
    dictInsert k v d ≠ [] := by
  cases d with
  | nil => simp [dictInsert]
  | cons hd tl =>
      obtain ⟨k', v'⟩ := hd
      by_cases h : k' = k <;> simp [dictInsert, h]

theorem buildCatalog_foldl_ne_nil (l : List Release) :
    ∀ acc : Catalog, acc ≠ [] →
      l.foldl (fun acc r => dictInsert (normTitle r.title) r acc) acc ≠ [] := by
  induction l with
  | nil => intro acc h; simpa using h
  | cons r rest ih =>
      intro acc _
      exact ih (dictInsert (normTitle r.title) r acc) (dictInsert_ne_nil _ _ _)

theorem buildCatalog_ne_nil (remote : List Release) (h : remote ≠ []) :
    buildCatalog remote ≠ [] := by
  cases remote with
  | nil => exact absurd rfl h
  | cons r rest =>
      unfold buildCatalog
      simpa [List.foldl_cons] using
        buildCatalog_foldl_ne_nil rest (dictInsert (normTitle r.title) r [])
          (dictInsert_ne_nil _ _ _)

/-- Counterexample to C7 as stated: when the remote has zero releases the
memoized mapping stays empty, so the second call to `get_releases` fetches
again (its fetch flag is `true`, not `false`). -/
theorem c7_memoized_cex :
    (get_releases [] (get_releases [] ([] : Catalog)).1).2 = true := by decide

/-- C7 amended: `get_releases` fetches on its first call, and — provided the
remote delivered at least one release — every subsequent call returns the
memoized mapping unchanged without a new network call.  (The code tests
memoization by emptiness of the mapping, so a remote with zero releases is
re-fetched on every call; see the counterexample.) -/
theorem c7_memoized_amended (remote : List Release) (h : remote ≠ []) :
    (get_releases remote ([] : Catalog)).2 = true ∧
    (get_releases remote (get_releases remote ([] : Catalog)).1).1 =
      (get_releases remote ([] : Catalog)).1 ∧
    (get_releases remote (get_releases remote ([] : Catalog)).1).2 = false := by
  have hb : buildCatalog remote ≠ [] := buildCatalog_ne_nil remote h
  simp [get_releases, List.isEmpty_iff, hb]

/-- Witness for the amended C7 on a one-release remote. -/
theorem c7_memoized_amended_witness :
    (get_releases [demoRelease] ([] : Catalog)).2 = true ∧
    (get_releases [demoRelease] (get_releases [demoRelease] ([] : Catalog)).1).1 =
      (get_releases [demoRelease] ([] : Catalog)).1 ∧
    (get_releases [demoRelease] (get_releases [demoRelease] ([] : Catalog)).1).2 = false :=
  c7_memoized_amended [demoRelease] (by decide)

/-- Counterexample to C8 as stated: a download that errors partway through
the fetch-to-disk step (after `open(file_path, "wb")` truncated the target)
leaves a zero-length artifact on disk — the partially written file is not
removed. -/
theorem c8_partial_cex :
    fsGet (joinPath (enc "d") asset1.name)
      (download_asset Fetch.readError asset1 (joinPath (enc "d") asset1.name) true
        ⟨[], []⟩).1.fs = some [] := by decide

/-- C8 amended: on a download error, `download_asset` performs no cleanup of
the target path.  If `urlopen` itself fails the target was never opened and
the filesystem is unchanged; if the error comes partway through the
fetch-to-disk step, the zero-length artifact produced by opening the target
for writing remains on disk (it is deleted only by the zero-byte check of
the next launch of that asset). -/
theorem c8_partial_amended (asset : Asset) (filePath : List Nat) (launch : Bool)
    (s : St) :
    (download_asset Fetch.connectError asset filePath launch s).1.fs = s.fs ∧
    (download_asset Fetch.connectError asset filePath launch s).2 = false ∧
    fsGet filePath (download_asset Fetch.readError asset filePath launch s).1.fs =
      some [] ∧
    (download_asset Fetch.readError asset filePath launch s).2 = false := by
  simp [download_asset, fsGet_fsSet_same]

theorem dictLookup_mem (k : List Nat) (v : Release) :
    ∀ d : Catalog, dictLookup k d = some v → (k, v) ∈ d := by
  intro d
  induction d with
  | nil => intro h; simp [dictLookup] at h
  | cons hd tl ih =>
      obtain ⟨k', v'⟩ := hd
      intro h
      by_cases hk : k' = k
      · subst hk
        simp [dictLookup] at h
        simp [h]
      · simp [dictLookup, hk] at h
        exact List.mem_cons_of_mem _ (ih h)

theorem dictLookup_dictInsert_self (k : List Nat) (v : Release) (d : Catalog) :
    dictLookup k (dictInsert k v d) = some v := by
  induction d with
  | nil => simp [dictInsert, dictLookup]
  | cons hd tl ih =>
      obtain ⟨k', v'⟩ := hd
      by_cases h : k' = k <;> simp [dictInsert, dictLookup, h, ih]

theorem dictLookup_dictInsert_ne (K k : List Nat) (v : Release) (d : Catalog)
    (h : k ≠ K) : dictLookup K (dictInsert k v d) = dictLookup K d := by
  induction d with
  | nil => simp [dictInsert, dictLookup, h]
  | cons hd tl ih =>
      obtain ⟨k', v'⟩ := hd
      by_cases h1 : k' = k
      · subst h1
        simp [dictInsert, dictLookup, h]
      · simp [dictInsert, dictLookup, h1, ih]

theorem fr_fold_preserve (K : List Nat) :
    ∀ (l : Catalog) (acc : Catalog),
      (dictLookup K acc).isSome = true →
      (dictLookup K (l.foldl (fun acc kr =>
        if titleFilter kr.1 then dictInsert (stripV kr.1) kr.2 acc else acc)
        acc)).isSome = true := by
  intro l
  induction l with
  | nil => intro acc h; simpa using h
  | cons kr rest ih =>
      intro acc h
      simp only [List.foldl_cons]
      apply ih
      by_cases hf : titleFilter kr.1
      · simp only [hf, if_true]
        by_cases hk : stripV kr.1 = K
        · subst hk; simp [dictLookup_dictInsert_self]
        · rw [dictLookup_dictInsert_ne K _ _ _ hk]; exact h
      · simpa [hf] using h

theorem fr_fold_present (K : List Nat) :
    ∀ (l : Catalog) (acc : Catalog) (k0 : List Nat) (r : Release),
      (k0, r) ∈ l → titleFilter k0 = true → stripV k0 = K →
      (dictLookup K (l.foldl (fun acc kr =>
        if titleFilter kr.1 then dictInsert (stripV kr.1) kr.2 acc else acc)
        acc)).isSome = true := by
  intro l
  induction l with
  | nil => intro acc k0 r h; simp at h
  | cons kr rest ih =>
      intro acc k0 r hmem hf hK
      simp only [List.foldl_cons]
      rcases List.mem_cons.mp hmem with heq | htail
      · apply fr_fold_preserve
        rw [← heq]
        simp only [hf, if_true]
        rw [hK]
        simp [dictLookup_dictInsert_self]
      · exact ih _ k0 r htail hf hK

theorem fr_fold_absent (K : List Nat)
    (hK : ∀ k1 : List Nat, titleFilter k1 = true → stripV k1 ≠ K) :
    ∀ (l : Catalog) (acc : Catalog),
      dictLookup K acc = none →
      dictLookup K (l.foldl (fun acc kr =>
        if titleFilter kr.1 then dictInsert (stripV kr.1) kr.2 acc else acc)
        acc) = none := by
  intro l
  induction l with
  | nil => intro acc h; simpa using h
  | cons kr rest ih =>
      intro acc h
      simp only [List.foldl_cons]
      apply ih
      by_cases hf : titleFilter kr.1
      · simp only [hf, if_true]
        rw [dictLookup_dictInsert_ne K _ _ _ (hK kr.1 hf)]
        exact h
      · simpa [hf] using h

theorem stripV_ne_vkey (k1 k' : List Nat) (hf : titleFilter k1 = true) :
    stripV k1 ≠ 118 :: k' := by
  intro hEq
  cases k1 with
  | nil => simp [stripV] at hEq
  | cons c t =>
      by_cases hv : c = 118 ∨ c = 86
      · have ht : t = 118 :: k' := by simpa [stripV, hv] using hEq
        rw [titleFilter] at hf
        simp [stripV, hv, ht, titleCore, List.takeWhile_cons,
          (by decide : isDigitDot 118 = false)] at hf
      · have hc : c = 118 := by
          simp [stripV, hv] at hEq
          exact hEq.1
        exact hv (Or.inl hc)

/-- Counterexample to C10 as stated: a catalog holding releases titled
`v1.2` and `1.2`.  The key `v1.2` begins with `v` and passes the title
filter, yet resolving its filtered (stripped) key `1.2` back through the
catalog does NOT fail with a key-not-found error — it silently returns the
other release. -/
theorem c10_strip_v_cex :
    titleFilter (enc "v1.2") = true ∧
    stripV (enc "v1.2") = enc "1.2" ∧
    select_release cexCatalog (stripV (enc "v1.2")) = some relB ∧
    relB ≠ relA := by decide

/-- C10 amended: for a release whose normalized catalog key begins with `v`
and passes the title filter, the key presented for selection is the stripped
key (it is a key of the filtered mapping while the original `v`-prefixed key
is not); resolving the stripped key back through the catalog — as
`select_release` and `launch_release` do — fails with a key-not-found error
whenever the stripped key is not itself a catalog key (when it is, the
lookup silently returns that other release instead, see the
counterexample). -/
theorem c10_strip_v_amended (catalog : Catalog) (k' : List Nat) (r : Release)
    (osType : String) (fetch : Fetch) (releaseDir : List Nat) (s : St)
    (hmem : dictLookup (118 :: k') catalog = some r)
    (hfilt : titleFilter (118 :: k') = true)
    (habsent : dictLookup k' catalog = none) :
    stripV (118 :: k') = k' ∧
    (∃ r', dictLookup k' (filter_releases catalog) = some r') ∧
    dictLookup (118 :: k') (filter_releases catalog) = none ∧
    select_release catalog k' = none ∧
    launch_release osType fetch catalog k' releaseDir s = (s, LRes.keyError) := by
  have hstrip : stripV (118 :: k') = k' := by simp [stripV]
  refine ⟨hstrip, ?_, ?_, habsent, ?_⟩
  · have hsome := fr_fold_present k' catalog [] (118 :: k') r
      (dictLookup_mem _ _ _ hmem) hfilt hstrip
    rw [filter_releases]
    exact Option.isSome_iff_exists.mp hsome
  · rw [filter_releases]
    exact fr_fold_absent (118 :: k') (fun k1 hf => stripV_ne_vkey k1 k' hf)
      catalog [] rfl
  · simp [launch_release, habsent]

/-- Witness for the amended C10: a catalog holding only the `v1.2`
release. -/
theorem c10_strip_v_amended_witness :
    stripV (118 :: enc "1.2") = enc "1.2" ∧
    (∃ r', dictLookup (enc "1.2") (filter_releases [(enc "v1.2", relA)]) = some r') ∧
    dictLookup (118 :: enc "1.2") (filter_releases [(enc "v1.2", relA)]) = none ∧
    select_release [(enc "v1.2", relA)] (enc "1.2") = none ∧
    launch_release "linux" Fetch.connectError [(enc "v1.2", relA)] (enc "1.2")
      (enc "d") ⟨[], []⟩ = (⟨[], []⟩, LRes.keyError) :=
  c10_strip_v_amended [(enc "v1.2", relA)] (enc "1.2") relA "linux"
    Fetch.connectError (enc "d") ⟨[], []⟩ (by decide) (by decide) (by decide)

theorem pyLower_idem (c : Nat) : pyLower (pyLower c) = pyLower c := by
  simp only [pyLower]
  split_ifs <;> omega

theorem lowerL_fixed (s : List Nat) : ∀ c ∈ lowerL s, pyLower c = c := by
  intro c hc
  rw [lowerL] at hc
  obtain ⟨a, _, rfl⟩ := List.mem_map.mp hc
  exact pyLower_idem a

theorem lowerL_eq_self (s : List Nat) (h : ∀ c ∈ s, pyLower c = c) :
    lowerL s = s := by
  induction s with
  | nil => rfl
  | cons c rest ih =>
      rw [lowerL, List.map_cons, h c (List.mem_cons_self c rest),
        ← lowerL, ih (fun d hd => h d (List.mem_cons_of_mem c hd))]

theorem replaceGo_sublist (pat : List Nat) :
    ∀ (fuel : Nat) (s : List Nat), List.Sublist (replaceGo pat fuel s) s := by
  intro fuel
  induction fuel with
  | zero => intro s; cases s <;> simp [replaceGo]
  | succ n ih =>
      intro s
      cases s with
      | nil => simp [replaceGo]
      | cons c rest =>
          rw [replaceGo]
          split_ifs with h
          · exact ((ih _).trans (List.drop_sublist _ _)).cons c
          · exact (ih rest).cons₂ c

theorem pyReplace_sublist (pat s : List Nat) : List.Sublist (pyReplace pat s) s :=
  replaceGo_sublist pat s.length s

theorem mem_dropWhile {p : Nat → Bool} :
    ∀ {l : List Nat} {c : Nat}, c ∈ l.dropWhile p → c ∈ l := by
  intro l
  induction l with
  | nil => intro c h; simp at h
  | cons a rest ih =>
      intro c h
      rw [List.dropWhile_cons] at h
      by_cases hp : p a
      · simp only [hp, if_true] at h
        exact List.mem_cons_of_mem a (ih h)
      · simpa [hp] using h

theorem mem_pyStrip {s : List Nat} {c : Nat} (h : c ∈ pyStrip s) : c ∈ s := by
  rw [pyStrip, List.mem_reverse] at h
  have h2 : c ∈ (s.dropWhile isPySpace).reverse := mem_dropWhile h
  rw [List.mem_reverse] at h2
  exact mem_dropWhile h2

theorem dropWhile_idem (p : Nat → Bool) :
    ∀ l : List Nat, (l.dropWhile p).dropWhile p = l.dropWhile p := by
  intro l
  induction l with
  | nil => simp
  | cons c rest ih =>
      rw [List.dropWhile_cons]
      by_cases hp : p c
      · simpa [hp] using ih
      · simp [List.dropWhile_cons, hp]

theorem dropWhile_head_false (p : Nat → Bool) :
    ∀ (l : List Nat) (c : Nat) (t : List Nat),
      l.dropWhile p = c :: t → p c = false := by
  intro l
  induction l with
  | nil => intro c t h; simp at h
  | cons a rest ih =>
      intro c t h
      rw [List.dropWhile_cons] at h
      by_cases hp : p a
      · simp only [hp, if_true] at h
        exact ih c t h
      · simp only [hp, if_false] at h
        obtain ⟨rfl, -⟩ := List.cons.injEq .. ▸ h
        · simpa using hp

theorem strip_decomp (s : List Nat) :
    s.dropWhile isPySpace =
      pyStrip s ++ ((s.dropWhile isPySpace).reverse.takeWhile isPySpace).reverse := by
  rw [pyStrip, ← List.reverse_append, List.takeWhile_append_dropWhile,
    List.reverse_reverse]

theorem pyStrip_lstrip (s : List Nat) :
    (pyStrip s).dropWhile isPySpace = pyStrip s := by
  cases hc : pyStrip s with
  | nil => simp
  | cons c t =>
      have hd := strip_decomp s
      rw [hc] at hd
      have hfalse : isPySpace c = false :=
        dropWhile_head_false isPySpace s c _ hd
      rw [List.dropWhile_cons, hfalse]
      simp

theorem pyStrip_idem (s : List Nat) : pyStrip (pyStrip s) = pyStrip s := by
  conv_lhs => rw [pyStrip]
  rw [pyStrip_lstrip, pyStrip, List.reverse_reverse, dropWhile_idem]

theorem replaceGo_no_occ (pat : List Nat) :
    ∀ (fuel : Nat) (s : List Nat), containsPat pat s = false →
      replaceGo pat fuel s = s := by
  intro fuel
  induction fuel with
  | zero => intro s _; cases s <;> rfl
  | succ n ih =>
      intro s h
      cases s with
      | nil => rfl
      | cons c rest =>
          simp only [containsPat, Bool.or_eq_false_iff] at h
          rw [replaceGo, if_neg, ih rest h.2]
          intro hcond
          exact absurd hcond.2 (by simp [h.1])

theorem pyReplace_no_occ (pat s : List Nat) (h : containsPat pat s = false) :
    pyReplace pat s = s := replaceGo_no_occ pat s.length s h

/-- Counterexample to C6 as stated: normalization is not idempotent.
Removing the display-name substring can create a new occurrence of it:
normalizing the title `"ultimakultimaker curaer cura"` yields
`"ultimaker cura"`, and normalizing again yields `""`. -/
theorem c6_normalize_not_idempotent_cex :
    normTitle (normTitle (enc "ultimakultimaker curaer cura")) ≠
      normTitle (enc "ultimakultimaker curaer cura") := by decide

/-- C6 amended: the title normalization (trim, lowercase, remove every
occurrence of the project display-name substring, trim) is idempotent on
every title whose normalized form no longer contains the display-name
substring — that is, whenever the removal step did not splice a new
occurrence together (which it can, see the counterexample). -/
theorem c6_normalize_idempotent_amended (t : List Nat)
    (h : containsPat ucPat (normTitle t) = false) :
    normTitle (normTitle t) = normTitle t := by
  have hfix : ∀ c ∈ normTitle t, pyLower c = c := by
    intro c hc
    rw [normTitle] at hc
    have h1 : c ∈ pyReplace ucPat (lowerL (pyStrip t)) := mem_pyStrip hc
    exact lowerL_fixed _ c (List.Sublist.mem h1 (pyReplace_sublist _ _))
  have hstrip : pyStrip (normTitle t) = normTitle t := by
    rw [normTitle]
    exact pyStrip_idem _
  have key : normTitle (normTitle t) =
      pyStrip (pyReplace ucPat (lowerL (pyStrip (normTitle t)))) := rfl
  rw [key, hstrip, lowerL_eq_self _ hfix, pyReplace_no_occ _ _ h, hstrip]

/-- Witness for the amended C6 on a realistic title. -/
theorem c6_normalize_idempotent_amended_witness :
    containsPat ucPat (normTitle (enc "  Ultimaker Cura 1.2.3  ")) = false ∧
    normTitle (normTitle (enc "  Ultimaker Cura 1.2.3  ")) =
      normTitle (enc "  Ultimaker Cura 1.2.3  ") :=
  ⟨by decide, c6_normalize_idempotent_amended _ (by decide)⟩

theorem stripV_decomp (s : List Nat) :
    ∃ v, s = v ++ stripV s ∧ (v = [] ∨ v = [118] ∨ v = [86]) := by
  cases s with
  | nil => exact ⟨[], rfl, Or.inl rfl⟩
  | cons c rest =>
      by_cases hv : c = 118 ∨ c = 86
      · refine ⟨[c], by simp [stripV, hv], ?_⟩
        rcases hv with rfl | rfl
        · exact Or.inr (Or.inl rfl)
        · exact Or.inr (Or.inr rfl)
      · exact ⟨[], by simp [stripV, hv], Or.inl rfl⟩

theorem mem_stripV {s : List Nat} {c : Nat} (h : c ∈ stripV s) : c ∈ s := by
  cases s with
  | nil => simp [stripV] at h
  | cons a rest =>
      by_cases hv : a = 118 ∨ a = 86
      · simp only [stripV, if_pos hv] at h
        exact List.mem_cons_of_mem a h
      · simpa [stripV, hv] using h

theorem takeWhile_all {p : Nat → Bool} :
    ∀ {l : List Nat}, (∀ c ∈ l, p c = true) → l.takeWhile p = l := by
  intro l
  induction l with
  | nil => intro _; rfl
  | cons a rest ih =>
      intro h
      rw [List.takeWhile_cons, h a (List.mem_cons_self a rest)]
      simp only [if_true]
      rw [ih (fun c hc => h c (List.mem_cons_of_mem a hc))]

theorem dropWhile_all {p : Nat → Bool} :
    ∀ {l : List Nat}, (∀ c ∈ l, p c = true) → l.dropWhile p = [] := by
  intro l
  induction l with
  | nil => intro _; rfl
  | cons a rest ih =>
      intro h
      rw [List.dropWhile_cons, h a (List.mem_cons_self a rest)]
      simp only [if_true]
      exact ih (fun c hc => h c (List.mem_cons_of_mem a hc))

theorem takeWhile_append_not {p : Nat → Bool} (e : List Nat)
    (he : ∀ c t, e = c :: t → p c = false) :
    ∀ d : List Nat, (∀ c ∈ d, p c = true) →
      (d ++ e).takeWhile p = d ∧ (d ++ e).dropWhile p = e := by
  intro d
  induction d with
  | nil =>
      intro _
      cases hc : e with
      | nil => simp
      | cons c t =>
          have hpc := he c t hc
          constructor
          · simp [List.takeWhile_cons, hpc]
          · simp [List.dropWhile_cons, hpc]
  | cons a d' ih =>
      intro hall
      have hpa : p a = true := hall a (List.mem_cons_self a d')
      have ihr := ih (fun c hc => hall c (List.mem_cons_of_mem a hc))
      constructor
      · simp [List.takeWhile_cons, hpa, ihr.1]
      · simp [List.dropWhile_cons, hpa, ihr.2]

theorem isDigitDot_ne_v {c : Nat} (h : isDigitDot c = true) :
    ¬(c = 118 ∨ c = 86) := by
  intro hv
  simp only [isDigitDot, Bool.or_eq_true, Bool.and_eq_true, decide_eq_true_eq] at h
  rcases hv with rfl | rfl <;> omega

theorem dollarEnd_no_nl {l : List Nat} (h : dollarEnd l = true) (hnl : (10 : Nat) ∉ l) :
    l = [] := by
  cases l with
  | nil => rfl
  | cons a t =>
      cases t with
      | nil =>
          have ha : a = 10 := by simpa [dollarEnd] using h
          subst ha
          exact absurd (List.mem_cons_self 10 []) hnl
      | cons b t' => simp [dollarEnd] at h

theorem titleFilter_iff_spec (s : List Nat) (hnl : (10 : Nat) ∉ s) :
    titleFilter s = true ↔ SpecTitle s := by
  have hnl1 : (10 : Nat) ∉ stripV s := fun hm => hnl (mem_stripV hm)
  constructor
  · intro h
    simp only [titleFilter, titleCore, Bool.and_eq_true, Bool.or_eq_true,
      decide_eq_true_eq] at h
    obtain ⟨hd_ne, hrest⟩ := h
    obtain ⟨v, hs, hv⟩ := stripV_decomp s
    have hsplit := List.takeWhile_append_dropWhile isDigitDot (stripV s)
    rcases hrest with hde | hmatch
    · have hnlr : (10 : Nat) ∉ (stripV s).dropWhile isDigitDot :=
        fun hm => hnl1 (mem_dropWhile hm)
      have hr := dollarEnd_no_nl hde hnlr
      refine ⟨v, (stripV s).takeWhile isDigitDot, [], ?_, hv, hd_ne,
        fun c hc => List.mem_takeWhile_imp hc, Or.inl rfl⟩
      rw [hr, List.append_nil] at hsplit
      rw [List.append_nil, hsplit]
      exact hs
    · cases hr : (stripV s).dropWhile isDigitDot with
      | nil => rw [hr] at hmatch; simp at hmatch
      | cons a tl =>
          rw [hr] at hmatch
          simp only [Bool.and_eq_true, decide_eq_true_eq] at hmatch
          obtain ⟨⟨ha, htl_ne⟩, hde⟩ := hmatch
          subst ha
          have hnltl : (10 : Nat) ∉ tl := by
            intro hm
            exact hnl1 (mem_dropWhile (hr ▸ List.mem_cons_of_mem 45 hm))
          have hnldrop : (10 : Nat) ∉ tl.dropWhile isAlphaIC :=
            fun hm => hnltl (mem_dropWhile hm)
          have hdropnil := dollarEnd_no_nl hde hnldrop
          have htl : tl.takeWhile isAlphaIC = tl := by
            have := List.takeWhile_append_dropWhile isAlphaIC tl
            rw [hdropnil, List.append_nil] at this
            exact this
          refine ⟨v, (stripV s).takeWhile isDigitDot, 45 :: tl, ?_, hv, hd_ne,
            fun c hc => List.mem_takeWhile_imp hc,
            Or.inr ⟨tl, rfl, by rw [htl] at htl_ne; exact htl_ne,
              fun c hc => List.mem_takeWhile_imp (htl ▸ hc)⟩⟩
          rw [hr] at hsplit
          rw [List.append_assoc, hsplit]
          exact hs
  · intro hspec
    obtain ⟨v, d, e, hs, hv, hdne, hdall, he⟩ := hspec
    have hstrip : stripV s = d ++ e := by
      rcases hv with rfl | rfl | rfl
      · cases d with
        | nil => exact absurd rfl hdne
        | cons c0 d' =>
            have hnotv : ¬(c0 = 118 ∨ c0 = 86) :=
              isDigitDot_ne_v (hdall c0 (List.mem_cons_self _ _))
            rw [hs]
            simp [stripV, hnotv]
      · rw [hs]; simp [stripV]
      · rw [hs]; simp [stripV]
    have hbound : ∀ c t, e = c :: t → isDigitDot c = false := by
      intro c t hct
      rcases he with rfl | ⟨ls, hels, -, -⟩
      · simp at hct
      · rw [hels] at hct
        obtain ⟨rfl, -⟩ := List.cons.inj hct
        decide
    have htd := takeWhile_append_not e hbound d hdall
    simp only [titleFilter, titleCore, hstrip, htd.1, htd.2, Bool.and_eq_true,
      Bool.or_eq_true, decide_eq_true_eq]
    refine ⟨hdne, ?_⟩
    rcases he with rfl | ⟨ls, rfl, hlsne, hlsall⟩
    · exact Or.inl (by simp [dollarEnd])
    · right
      simp [takeWhile_all hlsall, dropWhile_all hlsall, hlsne, dollarEnd]

/-- C3: the release-title filter accepts `"1.2.3"`, `"v1.2.3"` and
`"1.2.3-beta"`, rejects `"latest"`, `"v1.2.3.4-RC candidate"` and the empty
string; and on every newline-free string it accepts exactly the titles
matching "optional leading `v`, then digits and dots, optionally followed by
a hyphen and lowercase letters", case-insensitively (`SpecTitle`). -/
theorem c3_title_filter :
    titleFilter (enc "1.2.3") = true ∧
    titleFilter (enc "v1.2.3") = true ∧
    titleFilter (enc "1.2.3-beta") = true ∧
    titleFilter (enc "latest") = false ∧
    titleFilter (enc "v1.2.3.4-RC candidate") = false ∧
    titleFilter (enc "") = false ∧
    ∀ s : List Nat, (10 : Nat) ∉ s → (titleFilter s = true ↔ SpecTitle s) :=
  ⟨by decide, by decide, by decide, by decide, by decide, by decide,
    fun s hnl => titleFilter_iff_spec s hnl⟩

/-- Witness for C3's general part at the string `v1.2.3`. -/
theorem c3_title_filter_witness :
    (10 : Nat) ∉ enc "v1.2.3" ∧
    (titleFilter (enc "v1.2.3") = true ↔ SpecTitle (enc "v1.2.3")) :=
  ⟨by decide, c3_title_filter.2.2.2.2.2.2 (enc "v1.2.3") (by decide)⟩
